import Mathlib

/-!
Verification of the `type-writer-text` component: a shallow embedding of
`_traverseNodes` (ContentParser), `_render` / `_tagsMatch`
(IncrementalRenderer), `_calculateCharDelay` (DurationPolicy) and the
playback methods (`start`, `pause`, `resume`, `complete`, `reset`, `seek`,
`setText`, `_animate`) of `type-writer-text.js`, together with theorems
about the behaviour the specification describes.

Conventions of the embedding: JS numbers are rationals; the `NaN` and
`Infinity` results of an unguarded division are modelled by `JSVal`;
`maxDuration = Infinity` is modelled by `none`; the DOM trees are the
mutual inductives `MNode`/`MForest` (input markup) and `RNode`/`RForest`
(rendered fragment).  All recursive functions are structurally recursive
(loops carry explicit fuel bounded by the stack length), so every
definition evaluates by `decide`/`rfl`.
-/

namespace TWT

/-- Attribute list of one element, in insertion order, as `_traverseNodes`
copies it from `node.attributes`. -/
abbrev Attrs := List (String × String)

/-- Model of `toLowerCase()` as applied to tag names (ASCII lowering,
character by character). -/
def toLowerStr (s : String) : String := String.mk (s.data.map Char.toLower)

/-- One frame of the `openTags` ancestry stack of `_traverseNodes`: the
lower-cased tag name plus the copied attributes. -/
structure TagInfo where
  name : String
  attributes : Attrs
deriving DecidableEq, Repr

/-- One entry of `_parsedNodes` (`{type: 'char', char, tags}`): a character
together with the ancestor tag path open when it was visited. -/
structure CharUnit where
  char : Char
  tags : List TagInfo
deriving DecidableEq, Repr

mutual
/-- A node of the markup tree the host parser hands to `_traverseNodes`:
a text node, an element with attributes and children, or a non-text
structural node such as a comment. -/
inductive MNode where
  | text (s : String)
  | element (name : String) (attributes : Attrs) (children : MForest)
  | comment (s : String)
deriving DecidableEq, Repr
/-- A sibling list of markup nodes (`childNodes`). -/
inductive MForest where
  | nil
  | cons (head : MNode) (tail : MForest)
deriving DecidableEq, Repr
end

/-- Concatenation of sibling lists of markup nodes. -/
def MForest.append : MForest → MForest → MForest
  | MForest.nil, b => b
  | MForest.cons n rest, b => MForest.cons n (rest.append b)

mutual
/-- Units contributed by a single node in `_traverseNodes`. -/
def traverseOne : MNode → List TagInfo → List CharUnit
  | MNode.text s, openTags => s.toList.map (fun c => { char := c, tags := openTags })
  | MNode.element name attrs children, openTags =>
      traverseForest children (openTags ++ [{ name := toLowerStr name, attributes := attrs }])
  | MNode.comment _, _ => []
/-- Model of `_traverseNodes(nodes, openTags)`: depth-first, pre-order, one
unit per character of each text node, with a snapshot of `openTags`. -/
def traverseForest : MForest → List TagInfo → List CharUnit
  | MForest.nil, _ => []
  | MForest.cons n rest, openTags => traverseOne n openTags ++ traverseForest rest openTags
end

/-- Model of `_parseContent`: flatten the markup into `_parsedNodes`. -/
def parseContent (m : MForest) : List CharUnit := traverseForest m []

mutual
/-- A node of the tree `_render` builds inside its document fragment. -/
inductive RNode where
  | text (c : Char)
  | element (name : String) (attributes : Attrs) (children : RForest)
deriving DecidableEq, Repr
/-- A sibling list of rendered nodes. -/
inductive RForest where
  | nil
  | cons (head : RNode) (tail : RForest)
deriving DecidableEq, Repr
end

/-- Append one rendered node at the end of a sibling list (`appendChild`). -/
def RForest.snoc : RForest → RNode → RForest
  | RForest.nil, n => RForest.cons n RForest.nil
  | RForest.cons h t, n => RForest.cons h (t.snoc n)

/-- Concatenation of sibling lists of rendered nodes. -/
def RForest.append : RForest → RForest → RForest
  | RForest.nil, b => b
  | RForest.cons n rest, b => RForest.cons n (rest.append b)

/-- One materialized ancestor element on `_render`'s `tagStack`, carrying
the children attached to it so far. -/
structure Frame where
  name : String
  attributes : Attrs
  children : RForest
deriving DecidableEq, Repr

/-- The fragment under construction in `_render`: the completed children of
the fragment plus the stack of currently open elements (`tagStack` /
`parentStack`), innermost element first. -/
structure RenderState where
  rootChildren : RForest
  openStack : List Frame
deriving DecidableEq, Repr

/-- Model of `_tagsMatch(tags1, tags2)`: `tags1` is the list of names of the
materialized elements, outermost first (`element.nodeName.toLowerCase()` is
their lower-casing), `tags2` the tag path of the unit. -/
def tagsMatch (tags1 : List String) (tags2 : List TagInfo) : Bool :=
  if tags1.length ≠ tags2.length then false
  else (List.zip tags1 tags2).all (fun p => toLowerStr p.1 == p.2.name)

/-- Names of the open elements, outermost first, as `_tagsMatch` reads
`tagStack`. -/
def stackNames (st : RenderState) : List String := (st.openStack.map Frame.name).reverse

/-- The guard of the closing `while` loop of `_render`. -/
def shouldPop (st : RenderState) (tags : List TagInfo) : Bool :=
  decide (st.openStack.length > tags.length) ||
    (decide (st.openStack.length > 0) && !(tagsMatch (stackNames st) tags))

/-- Close the innermost open element.  In `_render` the element was attached
to its parent by `appendChild` when it was created, and the parent receives
no further children while a child of it is open, so the closed element sits
at the end of its parent's children. -/
def closeTop (st : RenderState) : RenderState :=
  match st.openStack with
  | [] => st
  | f :: [] =>
      { rootChildren := st.rootChildren.snoc (RNode.element f.name f.attributes f.children),
        openStack := [] }
  | f :: g :: rest =>
      { rootChildren := st.rootChildren,
        openStack :=
          { g with children := g.children.snoc (RNode.element f.name f.attributes f.children) } :: rest }

/-- Fuel-indexed closing loop of `_render` (`while (...) { pop }`). -/
def popLoopF : Nat → RenderState → List TagInfo → RenderState
  | 0, st, _ => st
  | fuel + 1, st, tags => if shouldPop st tags then popLoopF fuel (closeTop st) tags else st

/-- The closing `while` loop; each iteration pops one element, so the stack
length bounds the number of iterations. -/
def popLoop (st : RenderState) (tags : List TagInfo) : RenderState :=
  popLoopF st.openStack.length st tags

/-- A freshly created element for one tag frame: `createElement(tagInfo.name)`
with the frame's attributes set and no children yet. -/
def mkFrame (t : TagInfo) : Frame :=
  { name := t.name, attributes := t.attributes, children := RForest.nil }

/-- The opening `for` loop of `_render`: create, attach, push and descend
into each remaining frame of the unit's tag path. -/
def openFrames (st : RenderState) (toOpen : List TagInfo) : RenderState :=
  toOpen.foldl
    (fun s t => { rootChildren := s.rootChildren, openStack := mkFrame t :: s.openStack }) st

/-- Append the unit's character under the current parent
(`createTextNode` + `appendChild`). -/
def appendChar (st : RenderState) (c : Char) : RenderState :=
  match st.openStack with
  | [] => { rootChildren := st.rootChildren.snoc (RNode.text c), openStack := [] }
  | f :: rest =>
      { rootChildren := st.rootChildren,
        openStack := { f with children := f.children.snoc (RNode.text c) } :: rest }

/-- One iteration of `_render`'s main loop for one parsed unit. -/
def stepUnit (st : RenderState) (u : CharUnit) : RenderState :=
  let st1 := popLoop st u.tags
  let st2 := openFrames st1 (u.tags.drop st1.openStack.length)
  appendChar st2 u.char

/-- Fuel-indexed closing of every still-open element. -/
def closeAllF : Nat → RenderState → RenderState
  | 0, st => st
  | fuel + 1, st =>
    match st.openStack with
    | [] => st
    | _ :: _ => closeAllF fuel (closeTop st)

/-- Close every still-open element: in `_render` the open elements are
already attached inside the fragment, this materializes that fragment as a
finished tree. -/
def closeAll (st : RenderState) : RenderState := closeAllF st.openStack.length st

/-- The empty fragment `_render` starts from. -/
def initState : RenderState := { rootChildren := RForest.nil, openStack := [] }

/-- Number of iterations of `for (i = 0; i < x; i++)` for a (possibly
fractional, possibly negative) JS bound `x`. -/
def cutNat (x : ℚ) : Nat := Int.toNat ⌈x⌉

/-- Model of `_render` run over `units` with `_currentIndex = cutIndex`: the
children of the produced document fragment. -/
def renderUnits (units : List CharUnit) (cutIndex : Nat) : RForest :=
  (closeAll ((units.take cutIndex).foldl stepUnit initState)).rootChildren

/-- One step of the structural serialization of a tree used to compare the
rendered fragment with the source markup: enter an element (name and
attributes), observe one character, leave an element. -/
inductive SEvent where
  | enter (name : String) (attributes : Attrs)
  | chr (c : Char)
  | leave
deriving DecidableEq, Repr

mutual
/-- Serialization of one rendered node. -/
def eventsN : RNode → List SEvent
  | RNode.text c => [SEvent.chr c]
  | RNode.element n a cs => SEvent.enter n a :: (eventsF cs ++ [SEvent.leave])
/-- Serialization of a rendered sibling list. -/
def eventsF : RForest → List SEvent
  | RForest.nil => []
  | RForest.cons h t => eventsN h ++ eventsF t
end

mutual
/-- Serialization of one source markup node as ContentParser observes it:
tag names lower-cased by the host, comments invisible, text split into
characters. -/
def eventsM1 : MNode → List SEvent
  | MNode.text s => s.toList.map SEvent.chr
  | MNode.element n a cs => SEvent.enter (toLowerStr n) a :: (eventsMF cs ++ [SEvent.leave])
  | MNode.comment _ => []
/-- Serialization of a source sibling list. -/
def eventsMF : MForest → List SEvent
  | MForest.nil => []
  | MForest.cons h t => eventsM1 h ++ eventsMF t
end

mutual
/-- Characters of one rendered node, in order. -/
def textN : RNode → List Char
  | RNode.text c => [c]
  | RNode.element _ _ cs => textF cs
/-- Characters of a rendered sibling list, in order. -/
def textF : RForest → List Char
  | RForest.nil => []
  | RForest.cons h t => textN h ++ textF t
end

mutual
/-- Characters of one source node, in document order. -/
def textM1 : MNode → List Char
  | MNode.text s => s.toList
  | MNode.element _ _ cs => textMF cs
  | MNode.comment _ => []
/-- Characters of a source sibling list, in document order. -/
def textMF : MForest → List Char
  | MForest.nil => []
  | MForest.cons h t => textM1 h ++ textMF t
end

/-- All characters currently inside a render state, in the order the finished
fragment will carry them: completed root children first, then the children
of each open element from outermost to innermost. -/
def stateText (st : RenderState) : List Char :=
  textF st.rootChildren ++ (st.openStack.reverse.map (fun f => textF f.children)).flatten

/-- A JS number produced by the divisions in the component: a finite value,
or `NaN` / `Infinity` / `-Infinity` from an unguarded division by zero. -/
inductive JSVal where
  | nan
  | inf
  | ninf
  | val (q : ℚ)
deriving DecidableEq, Repr

/-- JS division `a / b` on finite operands. -/
def jsDiv (a b : ℚ) : JSVal :=
  if b = 0 then (if a = 0 then JSVal.nan else if a > 0 then JSVal.inf else JSVal.ninf)
  else JSVal.val (a / b)

/-- The events the component dispatches.  `progress` carries
`{current, total, progress}`, `seek` carries `{position, progress}`; their
last field is the (possibly unguarded) division result. -/
inductive CEvent where
  | start
  | pause
  | resume
  | complete
  | reset
  | progress (current : ℚ) (total : Nat) (prog : JSVal)
  | seek (position : ℚ) (prog : JSVal)
deriving DecidableEq, Repr

/-- The component state fields driving playback.  `animationFrame` records
whether a scheduled tick is pending; `maxDuration = none` models
`Infinity`. -/
structure CtlState where
  parsedNodes : List CharUnit
  currentIndex : ℚ
  isPlaying : Bool
  isPaused : Bool
  animationFrame : Bool
  lastTimestamp : ℚ
  speed : ℚ
  minDuration : ℚ
  maxDuration : Option ℚ
deriving DecidableEq, Repr

/-- Result of one public operation or one tick callback: the new state, the
events dispatched, and the fragment passed to the host display if `_render`
ran (`none` if it did not). -/
structure OpResult where
  state : CtlState
  events : List CEvent
  rendered : Option RForest
deriving DecidableEq, Repr

/-- The fragment `_render` produces from the current state. -/
def renderAt (s : CtlState) : RForest := renderUnits s.parsedNodes (cutNat s.currentIndex)

/-- Model of `_cancelAnimation` (idempotent). -/
def cancelAnimation (s : CtlState) : CtlState := { s with animationFrame := false }

/-- Model of `_calculateCharDelay` as a function of its four inputs. -/
def delayPerChar (totalChars : Nat) (speed minDuration : ℚ) (maxDuration : Option ℚ) : ℚ :=
  if totalChars = 0 then 0
  else
    let baseDelay := 50 / speed
    let baseDuration := baseDelay * (totalChars : ℚ)
    if minDuration > 0 ∧ baseDuration < minDuration then minDuration / (totalChars : ℚ)
    else
      match maxDuration with
      | some maxD => if baseDuration > maxD then maxD / (totalChars : ℚ) else baseDelay
      | none => baseDelay

/-- Model of `_calculateCharDelay()` on the component state. -/
def calculateCharDelay (s : CtlState) : ℚ :=
  delayPerChar s.parsedNodes.length s.speed s.minDuration s.maxDuration

/-- Model of `attributeChangedCallback` for `speed`; `parseFloat` of a
non-numeric string is `NaN`, modelled by `none`. -/
def setSpeedAttr (s : CtlState) (v : Option ℚ) : CtlState :=
  match v with
  | some x => { s with speed := if x > 0 then x else 1 }
  | none => { s with speed := 1 }

/-- Model of `attributeChangedCallback` for `min-duration`. -/
def setMinDurationAttr (s : CtlState) (v : Option ℚ) : CtlState :=
  match v with
  | some x => { s with minDuration := if x ≥ 0 then x else 0 }
  | none => { s with minDuration := 0 }

/-- Model of `attributeChangedCallback` for `max-duration`. -/
def setMaxDurationAttr (s : CtlState) (v : Option ℚ) : CtlState :=
  match v with
  | some x => { s with maxDuration := if x ≥ 0 then some x else none }
  | none => { s with maxDuration := none }

/-- Model of `start()`. -/
def startOp (s : CtlState) : OpResult :=
  if s.isPlaying then { state := s, events := [], rendered := none }
  else
    let s1 := cancelAnimation s
    let s2 := { s1 with currentIndex := (0 : ℚ), lastTimestamp := (0 : ℚ),
                        isPlaying := true, isPaused := false }
    { state := { s2 with animationFrame := true },
      events := [CEvent.start],
      rendered := some (renderAt s2) }

/-- Model of `pause()`. -/
def pauseOp (s : CtlState) : OpResult :=
  if !s.isPlaying || s.isPaused then { state := s, events := [], rendered := none }
  else
    { state := cancelAnimation { s with isPaused := true },
      events := [CEvent.pause], rendered := none }

/-- Model of `resume()`. -/
def resumeOp (s : CtlState) : OpResult :=
  if !s.isPlaying || !s.isPaused then { state := s, events := [], rendered := none }
  else
    { state := { s with isPaused := false, lastTimestamp := (0 : ℚ), animationFrame := true },
      events := [CEvent.resume], rendered := none }

/-- Model of `complete()`. -/
def completeOp (s : CtlState) : OpResult :=
  let s1 := cancelAnimation s
  let s2 := { s1 with currentIndex := (s1.parsedNodes.length : ℚ),
                      isPlaying := false, isPaused := false }
  { state := s2, events := [CEvent.complete], rendered := some (renderAt s2) }

/-- Model of `reset()`. -/
def resetOp (s : CtlState) : OpResult :=
  let s1 := cancelAnimation s
  let s2 := { s1 with currentIndex := (0 : ℚ), lastTimestamp := (0 : ℚ),
                      isPlaying := false, isPaused := false }
  { state := s2, events := [CEvent.reset], rendered := some (renderAt s2) }

/-- Model of `setText(content)`: the host parses the string into a tree. -/
def setTextOp (s : CtlState) (content : MForest) : OpResult :=
  let s1 := cancelAnimation s
  let s2 := { s1 with parsedNodes := parseContent content, currentIndex := (0 : ℚ),
                      lastTimestamp := (0 : ℚ), isPlaying := false, isPaused := false }
  { state := s2, events := [], rendered := some (renderAt s2) }

/-- Model of `seek(position)`. -/
def seekOp (s : CtlState) (position : ℚ) : OpResult :=
  let wasPlaying := s.isPlaying && !s.isPaused
  let s1 := cancelAnimation s
  let len : ℚ := (s1.parsedNodes.length : ℚ)
  let newIndex : ℚ :=
    if 0 ≤ position ∧ position ≤ 1 then ((⌊position * len⌋ : ℤ) : ℚ)
    else max 0 (min position len)
  let s2 := { s1 with currentIndex := newIndex, lastTimestamp := (0 : ℚ) }
  let ev := CEvent.seek newIndex (jsDiv newIndex len)
  if wasPlaying then
    { state := { s2 with isPaused := false, animationFrame := true },
      events := [ev], rendered := some (renderAt s2) }
  else
    { state := s2, events := [ev], rendered := some (renderAt s2) }

/-- Model of one invocation of the `_animate(timestamp)` callback. -/
def animateOp (s : CtlState) (timestamp : ℚ) : OpResult :=
  if !s.isPlaying || s.isPaused then { state := s, events := [], rendered := none }
  else
    let s1 := if s.lastTimestamp = 0 then { s with lastTimestamp := timestamp } else s
    let elapsed := timestamp - s1.lastTimestamp
    let charDelay := calculateCharDelay s1
    if elapsed ≥ charDelay then
      let s2 := { s1 with lastTimestamp := timestamp }
      let advanced : Bool := decide (s2.currentIndex < (s2.parsedNodes.length : ℚ))
      let s3 := if advanced then { s2 with currentIndex := s2.currentIndex + 1 } else s2
      let evs :=
        if advanced then
          [CEvent.progress s3.currentIndex s3.parsedNodes.length
            (jsDiv s3.currentIndex (s3.parsedNodes.length : ℚ))]
        else []
      let r := if advanced then some (renderAt s3) else none
      if s3.currentIndex ≥ (s3.parsedNodes.length : ℚ) then
        { state := { s3 with isPlaying := false }, events := evs ++ [CEvent.complete], rendered := r }
      else
        { state := { s3 with animationFrame := true }, events := evs, rendered := r }
    else
      { state := { s1 with animationFrame := true }, events := [], rendered := none }

/-- The `isPlaying` getter (the spec's phase `Playing`). -/
def getIsPlaying (s : CtlState) : Bool := s.isPlaying && !s.isPaused

/-- The `isPaused` getter (the spec's phase `Paused`). -/
def getIsPaused (s : CtlState) : Bool := s.isPaused

/-- The `progress` getter, guarded against an empty sequence. -/
def getProgress (s : CtlState) : ℚ :=
  if s.parsedNodes.length > 0 then s.currentIndex / (s.parsedNodes.length : ℚ) else 0

/-! Definitions used to state the properties: the DurationPolicy formula as
the specification words it, canonical shapes of rendered fragments, the
class of inputs for which the structural round-trip holds, and concrete
sample inputs. -/

/-- The per-character delay exactly as the specification words it
(`baseDelay = 50/speed`, `projected = baseDelay × totalChars`, minimum
bound first, then maximum bound, else base), for comparison with the
source-derived `delayPerChar`. -/
def delayPerCharSpec (totalChars : Nat) (speed minDurationMs : ℚ) (maxDurationMs : Option ℚ) : ℚ :=
  if totalChars = 0 then 0
  else
    let baseDelay := 50 / speed
    let projected := baseDelay * (totalChars : ℚ)
    if minDurationMs > 0 ∧ projected < minDurationMs then minDurationMs / (totalChars : ℚ)
    else if h : maxDurationMs.isSome then
      (if projected > maxDurationMs.get h then maxDurationMs.get h / (totalChars : ℚ) else baseDelay)
    else baseDelay

/-- Close a stack of open frames (innermost first) around one node: each
close wraps the node as the last child of the next frame out.  Describes
what `closeAll` does to a non-empty stack. -/
def wrapL : List Frame → RNode → RNode
  | [], inner => inner
  | g :: gs, inner => wrapL gs (RNode.element g.name g.attributes (g.children.snoc inner))

/-- A chain of singly-nested elements (outermost first) around one node. -/
def nestTags : List TagInfo → RNode → RNode
  | [], inner => inner
  | t :: ts, inner => RNode.element t.name t.attributes (RForest.cons (nestTags ts inner) RForest.nil)

/-- A chain of singly-nested elements (outermost first) around a sibling
list. -/
def nestBody : List TagInfo → RForest → RForest
  | [], body => body
  | t :: ts, body => RForest.cons (RNode.element t.name t.attributes (nestBody ts body)) RForest.nil

/-- Append a run of characters as sibling text nodes. -/
def appendTexts (r : RForest) (cs : List Char) : RForest :=
  cs.foldl (fun acc c => acc.snoc (RNode.text c)) r

/-- A run of characters as sibling text nodes. -/
def textsOf (cs : List Char) : RForest := appendTexts RForest.nil cs

/-- A node is simple when it is a non-empty text node or an element holding
exactly one non-empty text node. -/
def simpleNode : MNode → Bool
  | MNode.text s => !(s == "")
  | MNode.element _ _ (MForest.cons (MNode.text s) MForest.nil) => !(s == "")
  | _ => false

/-- Every sibling is simple. -/
def allSimple : MForest → Bool
  | MForest.nil => true
  | MForest.cons n rest => simpleNode n && allSimple rest

/-- No two directly adjacent sibling elements share a (lower-cased) tag
name. -/
def distinctAdjacent : MForest → Bool
  | MForest.cons (MNode.element n1 _ _) (MForest.cons (MNode.element n2 a2 c2) rest) =>
      !(toLowerStr n1 == toLowerStr n2) && distinctAdjacent (MForest.cons (MNode.element n2 a2 c2) rest)
  | MForest.cons _ rest => distinctAdjacent rest
  | MForest.nil => true

/-- The input class on which the structural round-trip holds: a flat
sequence of non-empty texts and single-text elements, adjacent elements
carrying distinct tag names. -/
def SimpleSeq (m : MForest) : Bool := allSimple m && distinctAdjacent m

/-- The text of a forest that consists of exactly one text node. -/
def soleText : MForest → String
  | MForest.cons (MNode.text s) MForest.nil => s
  | _ => ""

/-- Canonical rendering of one simple node. -/
def renderedM1 : MNode → RForest
  | MNode.text s => textsOf s.toList
  | MNode.element n a cs =>
      RForest.cons (RNode.element (toLowerStr n) a (textsOf (soleText cs).toList)) RForest.nil
  | MNode.comment _ => RForest.nil

/-- Canonical rendering of a simple forest. -/
def renderedMF : MForest → RForest
  | MForest.nil => RForest.nil
  | MForest.cons n rest => (renderedM1 n).append (renderedMF rest)

/-- The frame left open on entry of a node does not carry the (lower-cased)
name of that node if the node is an element. -/
def NoClash (g : Frame) : MForest → Prop
  | MForest.cons (MNode.element n _ _) _ => g.name ≠ toLowerStr n
  | _ => True

/-- States from which processing a simple forest behaves compositionally:
either no element is open, or exactly one is, its name is lower-case
stable, and it does not clash with the next node. -/
def OkEntry (st : RenderState) (m : MForest) : Prop :=
  st.openStack = [] ∨ ∃ g, st.openStack = [g] ∧ toLowerStr g.name = g.name ∧ NoClash g m

/-- The state invariant of claim C8. -/
def IndexInvariant (s : CtlState) : Prop :=
  0 ≤ s.currentIndex ∧ s.currentIndex ≤ (s.parsedNodes.length : ℚ)

/-- The markup `"<b>Hi</b>"` of concrete scenario 2. -/
def sampleBHi : MForest :=
  MForest.cons (MNode.element "b" [] (MForest.cons (MNode.text "Hi") MForest.nil)) MForest.nil

/-- The markup `"<b>A</b><b>B</b>"`: two adjacent sibling elements with the
same tag name. -/
def siblingSample : MForest :=
  MForest.cons (MNode.element "b" [] (MForest.cons (MNode.text "A") MForest.nil))
    (MForest.cons (MNode.element "b" [] (MForest.cons (MNode.text "B") MForest.nil)) MForest.nil)

/-- A component state with empty parsed sequence and default configuration. -/
def emptyState : CtlState :=
  { parsedNodes := [], currentIndex := 0, isPlaying := false, isPaused := false,
    animationFrame := false, lastTimestamp := 0, speed := 1, minDuration := 0, maxDuration := none }

/-- A paused component state (playing flag set, paused flag set) mid-way
through `"<b>Hi</b>"`. -/
def pausedSample : CtlState :=
  { parsedNodes := parseContent sampleBHi, currentIndex := 1, isPlaying := true, isPaused := true,
    animationFrame := false, lastTimestamp := 40, speed := 1, minDuration := 0, maxDuration := none }

/-- An idle component state over a ten-character sequence. -/
def tenState : CtlState :=
  { parsedNodes := (List.replicate 10 'a').map (fun c => { char := c, tags := [] }),
    currentIndex := 0, isPlaying := false, isPaused := false,
    animationFrame := false, lastTimestamp := 0, speed := 1, minDuration := 0, maxDuration := none }

/-- A playing component state one character before the end of
`"<b>Hi</b>"`. -/
def playingSample : CtlState :=
  { parsedNodes := parseContent sampleBHi, currentIndex := 1, isPlaying := true, isPaused := false,
    animationFrame := false, lastTimestamp := 5, speed := 1, minDuration := 0, maxDuration := none }

/-- Three consecutive units with the same tag name but pairwise different
attributes. -/
def unitAttr0 : CharUnit := { char := 'x', tags := [{ name := "b", attributes := [("k", "0")] }] }

/-- Second unit of the attribute run. -/
def unitAttr1 : CharUnit := { char := 'y', tags := [{ name := "b", attributes := [("k", "1")] }] }

/-- Third unit of the attribute run. -/
def unitAttr2 : CharUnit := { char := 'z', tags := [{ name := "b", attributes := [("k", "2")] }] }

/-! Foundational lemmas. -/

theorem toNatOfNatValid (n : Nat) (h : n.isValidChar) : (Char.ofNat n).toNat = n := by
  rw [Char.ofNat, dif_pos h]
  rfl

theorem charLowerIdem (c : Char) : c.toLower.toLower = c.toLower := by
  show Char.toLower (Char.toLower c) = Char.toLower c
  by_cases h : c.toNat ≥ 65 ∧ c.toNat ≤ 90
  · have hval : (c.toNat + 32).isValidChar := Or.inl (by omega)
    have h1 : Char.toLower c = Char.ofNat (c.toNat + 32) := by
      unfold Char.toLower
      simp only [h, and_self, if_true]
    rw [h1]
    unfold Char.toLower
    rw [toNatOfNatValid _ hval]
    have h2 : ¬(c.toNat + 32 ≥ 65 ∧ c.toNat + 32 ≤ 90) := by omega
    simp only [h2, if_false]
  · have h1 : Char.toLower c = c := by
      unfold Char.toLower
      simp only [h, if_false]
    rw [h1, h1]

theorem toLowerStrIdem (s : String) : toLowerStr (toLowerStr s) = toLowerStr s := by
  unfold toLowerStr
  simp only [List.map_map]
  congr 1
  exact List.map_congr_left (fun c _ => charLowerIdem c)

theorem forestAppendNil : ∀ (a : RForest), a.append RForest.nil = a
  | RForest.nil => rfl
  | RForest.cons n rest => congrArg (RForest.cons n) (forestAppendNil rest)

theorem forestAppendAssoc : ∀ (a b c : RForest), (a.append b).append c = a.append (b.append c)
  | RForest.nil, _, _ => rfl
  | RForest.cons n rest, b, c => congrArg (RForest.cons n) (forestAppendAssoc rest b c)

theorem snocEqAppend : ∀ (a : RForest) (n : RNode),
    a.snoc n = a.append (RForest.cons n RForest.nil)
  | RForest.nil, _ => rfl
  | RForest.cons h t, n => congrArg (RForest.cons h) (snocEqAppend t n)

theorem appendSnoc (a b : RForest) (n : RNode) : (a.append b).snoc n = a.append (b.snoc n) := by
  rw [snocEqAppend, snocEqAppend, forestAppendAssoc]

theorem textFAppend : ∀ (a b : RForest), textF (a.append b) = textF a ++ textF b
  | RForest.nil, _ => rfl
  | RForest.cons n rest, b => by
      show textN n ++ textF (rest.append b) = (textN n ++ textF rest) ++ textF b
      rw [textFAppend rest b, List.append_assoc]

theorem textFSnoc (a : RForest) (n : RNode) : textF (a.snoc n) = textF a ++ textN n := by
  rw [snocEqAppend, textFAppend]
  show textF a ++ (textN n ++ textF RForest.nil) = textF a ++ textN n
  rw [show textF RForest.nil = [] from rfl, List.append_nil]

theorem eventsFAppend : ∀ (a b : RForest), eventsF (a.append b) = eventsF a ++ eventsF b
  | RForest.nil, _ => rfl
  | RForest.cons n rest, b => by
      show eventsN n ++ eventsF (rest.append b) = (eventsN n ++ eventsF rest) ++ eventsF b
      rw [eventsFAppend rest b, List.append_assoc]

theorem eventsFSnoc (a : RForest) (n : RNode) : eventsF (a.snoc n) = eventsF a ++ eventsN n := by
  rw [snocEqAppend, eventsFAppend]
  show eventsF a ++ (eventsN n ++ eventsF RForest.nil) = eventsF a ++ eventsN n
  rw [show eventsF RForest.nil = [] from rfl, List.append_nil]

/-! Lemmas about the rendering loops. -/

theorem shouldPopEmpty (st : RenderState) (tags : List TagInfo) (h : st.openStack = []) :
    shouldPop st tags = false := by
  simp [shouldPop, h]

theorem popLoopFNo (fuel : Nat) (st : RenderState) (tags : List TagInfo)
    (h : shouldPop st tags = false) : popLoopF fuel st tags = st := by
  cases fuel with
  | zero => rfl
  | succ n => simp [popLoopF, h]

theorem popLoopEmpty (st : RenderState) (tags : List TagInfo) (h : st.openStack = []) :
    popLoop st tags = st :=
  popLoopFNo _ _ _ (shouldPopEmpty st tags h)

theorem closeTopLength : ∀ (R : RForest) (f : Frame) (rest : List Frame),
    (closeTop ⟨R, f :: rest⟩).openStack.length = rest.length
  | _, _, [] => rfl
  | _, _, _ :: _ => rfl

theorem closeAllFNilStack : ∀ (n : Nat) (st : RenderState), st.openStack.length ≤ n →
    (closeAllF n st).openStack = [] := by
  intro n
  induction n with
  | zero =>
    intro st h
    have h0 : st.openStack = [] := List.eq_nil_of_length_eq_zero (Nat.le_zero.mp h)
    obtain ⟨R, stack⟩ := st
    simp only at h0
    subst h0
    rfl
  | succ n ih =>
    intro st h
    obtain ⟨R, stack⟩ := st
    cases stack with
    | nil => rfl
    | cons f rest =>
      show (closeAllF n (closeTop ⟨R, f :: rest⟩)).openStack = []
      apply ih
      rw [closeTopLength]
      simpa using Nat.le_of_succ_le_succ (by simpa using h)

theorem closeAllStackNil (st : RenderState) : (closeAll st).openStack = [] :=
  closeAllFNilStack _ st (le_refl _)

theorem popLoopFNilTags : ∀ (n : Nat) (st : RenderState), popLoopF n st [] = closeAllF n st := by
  intro n
  induction n with
  | zero => intro st; rfl
  | succ n ih =>
    intro st
    obtain ⟨R, stack⟩ := st
    cases stack with
    | nil =>
      have h : shouldPop ⟨R, []⟩ [] = false := shouldPopEmpty _ _ rfl
      simp [popLoopF, closeAllF, h]
    | cons f rest =>
      have h : shouldPop ⟨R, f :: rest⟩ [] = true := by
        simp [shouldPop]
      simp only [popLoopF, closeAllF, h, if_true]
      exact ih _

theorem popLoopNilTags (st : RenderState) : popLoop st [] = closeAll st :=
  popLoopFNilTags _ st

theorem openFramesSpec : ∀ (ts : List TagInfo) (st : RenderState),
    openFrames st ts = ⟨st.rootChildren, (ts.map mkFrame).reverse ++ st.openStack⟩
  | [], st => rfl
  | t :: ts, st => by
    show openFrames ⟨st.rootChildren, mkFrame t :: st.openStack⟩ ts = _
    rw [openFramesSpec ts _]
    simp [List.reverse_cons, List.append_assoc]

theorem appendCharNilStack (st : RenderState) (c : Char) (h : st.openStack = []) :
    appendChar st c = ⟨st.rootChildren.snoc (RNode.text c), []⟩ := by
  obtain ⟨R, stack⟩ := st
  simp only at h
  subst h
  rfl

theorem stepUnitMatched (st : RenderState) (u : CharUnit)
    (hlen : st.openStack.length = u.tags.length)
    (hm : tagsMatch (stackNames st) u.tags = true) :
    stepUnit st u = appendChar st u.char := by
  have hp : shouldPop st u.tags = false := by
    simp [shouldPop, hlen, hm]
  show appendChar (openFrames (popLoop st u.tags) (u.tags.drop (popLoop st u.tags).openStack.length)) u.char = _
  rw [show popLoop st u.tags = st from popLoopFNo _ _ _ hp]
  rw [hlen, List.drop_length]
  rfl

theorem stepUnitFromEmpty (st : RenderState) (u : CharUnit) (h : st.openStack = []) :
    stepUnit st u = appendChar ⟨st.rootChildren, (u.tags.map mkFrame).reverse⟩ u.char := by
  show appendChar (openFrames (popLoop st u.tags) (u.tags.drop (popLoop st u.tags).openStack.length)) u.char = _
  rw [popLoopEmpty st u.tags h, h]
  simp only [List.length_nil, List.drop_zero]
  rw [openFramesSpec, h, List.append_nil]

theorem stepUnitFlush (st : RenderState) (c : Char) :
    stepUnit st { char := c, tags := [] } =
      ⟨(closeAll st).rootChildren.snoc (RNode.text c), []⟩ := by
  show appendChar (openFrames (popLoop st []) (List.drop (popLoop st []).openStack.length [])) c = _
  rw [popLoopNilTags, List.drop_nil]
  rw [show openFrames (closeAll st) [] = closeAll st from rfl]
  exact appendCharNilStack _ c (closeAllStackNil st)

theorem appendTextsEq : ∀ (cs : List Char) (R : RForest),
    appendTexts R cs = R.append (textsOf cs)
  | [], R => (forestAppendNil R).symm
  | c :: cs, R => by
    show appendTexts (R.snoc (RNode.text c)) cs = _
    rw [appendTextsEq cs (R.snoc (RNode.text c))]
    rw [show textsOf (c :: cs) = appendTexts (RForest.cons (RNode.text c) RForest.nil) cs from rfl]
    rw [appendTextsEq cs (RForest.cons (RNode.text c) RForest.nil)]
    rw [snocEqAppend, forestAppendAssoc]

theorem foldTextUnits : ∀ (cs : List Char) (R : RForest),
    List.foldl stepUnit ⟨R, []⟩ (cs.map (fun c => { char := c, tags := [] })) =
      ⟨appendTexts R cs, []⟩
  | [], R => rfl
  | c :: cs, R => by
    show List.foldl stepUnit (stepUnit ⟨R, []⟩ { char := c, tags := [] })
      (cs.map (fun c => { char := c, tags := [] })) = _
    rw [stepUnitFlush]
    exact foldTextUnits cs (R.snoc (RNode.text c))

theorem foldTextRun (st : RenderState) (c : Char) (cs : List Char) :
    List.foldl stepUnit st ((c :: cs).map (fun c => { char := c, tags := [] })) =
      ⟨appendTexts (closeAll st).rootChildren (c :: cs), []⟩ := by
  show List.foldl stepUnit (stepUnit st { char := c, tags := [] })
    (cs.map (fun c => { char := c, tags := [] })) = _
  rw [stepUnitFlush]
  exact foldTextUnits cs _

theorem foldElemRun : ∀ (cs : List Char) (R : RForest) (f : Frame) (t : TagInfo),
    toLowerStr f.name = t.name →
    List.foldl stepUnit ⟨R, [f]⟩ (cs.map (fun c => { char := c, tags := [t] })) =
      ⟨R, [{ f with children := appendTexts f.children cs }]⟩
  | [], _, _, _, _ => rfl
  | c :: cs, R, f, t, h => by
    have hm : tagsMatch (stackNames ⟨R, [f]⟩) [t] = true := by
      simp [tagsMatch, stackNames, h]
    have hstep : stepUnit ⟨R, [f]⟩ { char := c, tags := [t] } =
        ⟨R, [{ f with children := f.children.snoc (RNode.text c) }]⟩ := by
      rw [stepUnitMatched ⟨R, [f]⟩ { char := c, tags := [t] } rfl hm]
      rfl
    show List.foldl stepUnit (stepUnit ⟨R, [f]⟩ { char := c, tags := [t] })
      (cs.map (fun c => { char := c, tags := [t] })) = _
    rw [hstep]
    exact foldElemRun cs R { f with children := f.children.snoc (RNode.text c) } t h

theorem foldElemNode (st : RenderState) (t : TagInfo) (c : Char) (cs : List Char)
    (hok : st.openStack = [] ∨ ∃ g, st.openStack = [g] ∧ toLowerStr g.name ≠ t.name)
    (hlow : toLowerStr t.name = t.name) :
    List.foldl stepUnit st ((c :: cs).map (fun c => { char := c, tags := [t] })) =
      ⟨(closeAll st).rootChildren,
        [{ name := t.name, attributes := t.attributes, children := textsOf (c :: cs) }]⟩ := by
  obtain ⟨R, stack⟩ := st
  show List.foldl stepUnit (stepUnit ⟨R, stack⟩ { char := c, tags := [t] })
    (cs.map (fun c => { char := c, tags := [t] })) = _
  rcases hok with h | ⟨g, hg, hne⟩
  · simp only at h
    subst h
    rw [stepUnitFromEmpty ⟨R, []⟩ { char := c, tags := [t] } rfl]
    rw [show appendChar ⟨R, ([t].map mkFrame).reverse⟩ c =
      ⟨R, [{ name := t.name, attributes := t.attributes,
             children := RForest.nil.snoc (RNode.text c) }]⟩ from rfl]
    exact foldElemRun cs R _ t hlow
  · simp only at hg
    subst hg
    have hsp : shouldPop ⟨R, [g]⟩ [t] = true := by
      simp [shouldPop, tagsMatch, stackNames, hne]
    have hpop : popLoop ⟨R, [g]⟩ [t] =
        ⟨R.snoc (RNode.element g.name g.attributes g.children), []⟩ := by
      show popLoopF 1 ⟨R, [g]⟩ [t] = _
      simp [popLoopF, hsp, closeTop]
    have hstep : stepUnit ⟨R, [g]⟩ { char := c, tags := [t] } =
        ⟨R.snoc (RNode.element g.name g.attributes g.children),
          [{ name := t.name, attributes := t.attributes,
             children := RForest.nil.snoc (RNode.text c) }]⟩ := by
      show appendChar (openFrames (popLoop ⟨R, [g]⟩ [t])
        (List.drop (popLoop ⟨R, [g]⟩ [t]).openStack.length [t])) c = _
      rw [hpop]
      rfl
    rw [hstep]
    rw [foldElemRun cs _ _ t hlow]
    rfl

/-! Lemmas decomposing `SimpleSeq`. -/

theorem simpleSeqHead (n : MNode) (rest : MForest) (h : SimpleSeq (MForest.cons n rest) = true) :
    simpleNode n = true := by
  simp [SimpleSeq, allSimple] at h
  exact h.1.1

theorem simpleSeqAllTail (n : MNode) (rest : MForest)
    (h : SimpleSeq (MForest.cons n rest) = true) : allSimple rest = true := by
  simp [SimpleSeq, allSimple] at h
  exact h.1.2

theorem simpleSeqDistinct (m : MForest) (h : SimpleSeq m = true) : distinctAdjacent m = true := by
  simp [SimpleSeq] at h
  exact h.2

theorem distinctAdjacentTail (n : MNode) (rest : MForest)
    (h : distinctAdjacent (MForest.cons n rest) = true) : distinctAdjacent rest = true := by
  cases n with
  | text s => simpa [distinctAdjacent] using h
  | comment s => simpa [distinctAdjacent] using h
  | element n1 a1 c1 =>
    cases rest with
    | nil => rfl
    | cons hd tl =>
      cases hd with
      | text s => simpa [distinctAdjacent] using h
      | comment s => simpa [distinctAdjacent] using h
      | element n2 a2 c2 =>
        simp [distinctAdjacent] at h
        exact h.2

theorem distinctAdjacentNe (n1 : String) (a1 : Attrs) (c1 : MForest) (n2 : String)
    (a2 : Attrs) (c2 : MForest) (rest : MForest)
    (h : distinctAdjacent (MForest.cons (MNode.element n1 a1 c1)
      (MForest.cons (MNode.element n2 a2 c2) rest)) = true) :
    toLowerStr n1 ≠ toLowerStr n2 := by
  simp [distinctAdjacent] at h
  exact h.1

theorem simpleSeqTail (n : MNode) (rest : MForest)
    (h : SimpleSeq (MForest.cons n rest) = true) : SimpleSeq rest = true := by
  have h1 := simpleSeqAllTail n rest h
  have h2 := distinctAdjacentTail n rest (simpleSeqDistinct _ h)
  simp [SimpleSeq, h1, h2]

theorem simpleElemShape (nm : String) (a : Attrs) (cs : MForest)
    (h : simpleNode (MNode.element nm a cs) = true) :
    ∃ s, cs = MForest.cons (MNode.text s) MForest.nil ∧ (s == "") = false := by
  cases cs with
  | nil => simp [simpleNode] at h
  | cons hd tl =>
    cases hd with
    | text s =>
      cases tl with
      | nil => exact ⟨s, rfl, by simpa [simpleNode] using h⟩
      | cons _ _ => simp [simpleNode] at h
    | element _ _ _ => simp [simpleNode] at h
    | comment _ => simp [simpleNode] at h

theorem toListNeNil (s : String) (h : (s == "") = false) : s.toList ≠ [] := by
  intro hl
  have hd : s.data = [] := hl
  have : s = "" := by
    cases s
    simp only at hd
    rw [hd]
  rw [this] at h
  simp at h

/-! The structural round-trip on the simple class. -/

theorem textsOfCons (c : Char) (cs : List Char) :
    textsOf (c :: cs) = (RForest.cons (RNode.text c) RForest.nil).append (textsOf cs) := by
  show appendTexts (RForest.nil.snoc (RNode.text c)) cs = _
  rw [appendTextsEq]
  rfl

theorem eventsTextsOf : ∀ (cs : List Char), eventsF (textsOf cs) = cs.map SEvent.chr
  | [] => rfl
  | c :: cs => by
    rw [textsOfCons, eventsFAppend, eventsTextsOf cs]
    rfl

theorem eventsRenderedMF : ∀ (m : MForest), allSimple m = true →
    eventsF (renderedMF m) = eventsMF m
  | MForest.nil, _ => rfl
  | MForest.cons n rest, h => by
    have hn : simpleNode n = true := by
      simp [allSimple] at h
      exact h.1
    have hrest : allSimple rest = true := by
      simp [allSimple] at h
      exact h.2
    show eventsF ((renderedM1 n).append (renderedMF rest)) = eventsM1 n ++ eventsMF rest
    rw [eventsFAppend, eventsRenderedMF rest hrest]
    congr 1
    cases n with
    | text s => exact eventsTextsOf s.toList
    | comment s => rfl
    | element nm a cs =>
      obtain ⟨s, hcs, _⟩ := simpleElemShape nm a cs hn
      subst hcs
      show SEvent.enter (toLowerStr nm) a ::
        (eventsF (textsOf (soleText (MForest.cons (MNode.text s) MForest.nil)).toList)
          ++ [SEvent.leave]) ++ eventsF RForest.nil = _
      simp [eventsTextsOf, soleText, eventsM1, eventsMF, eventsF]

theorem renderSimpleAccum : ∀ (m : MForest) (st : RenderState),
    OkEntry st m → SimpleSeq m = true →
    (closeAll (List.foldl stepUnit st (traverseForest m []))).rootChildren =
      (closeAll st).rootChildren.append (renderedMF m)
  | MForest.nil, st, _, _ => by
    show (closeAll st).rootChildren = (closeAll st).rootChildren.append (renderedMF MForest.nil)
    rw [show renderedMF MForest.nil = RForest.nil from rfl, forestAppendNil]
  | MForest.cons (MNode.text s) rest, st, hok, hs => by
    have hne : s.toList ≠ [] := toListNeNil s (by simpa [simpleNode] using simpleSeqHead _ _ hs)
    obtain ⟨c, cs, hcs⟩ : ∃ c cs, s.toList = c :: cs := by
      cases hl : s.toList with
      | nil => exact absurd hl hne
      | cons c cs => exact ⟨c, cs, rfl⟩
    show (closeAll (List.foldl stepUnit st
      (traverseOne (MNode.text s) [] ++ traverseForest rest []))).rootChildren = _
    rw [List.foldl_append]
    rw [show traverseOne (MNode.text s) [] =
      s.toList.map (fun c => { char := c, tags := [] }) from rfl]
    rw [hcs, foldTextRun st c cs]
    rw [renderSimpleAccum rest _ (Or.inl rfl) (simpleSeqTail _ _ hs)]
    rw [show (closeAll (⟨appendTexts (closeAll st).rootChildren (c :: cs), []⟩ :
      RenderState)).rootChildren = appendTexts (closeAll st).rootChildren (c :: cs) from rfl]
    rw [appendTextsEq, forestAppendAssoc]
    rw [show renderedMF (MForest.cons (MNode.text s) rest) =
      (textsOf s.toList).append (renderedMF rest) from rfl]
    rw [hcs]
  | MForest.cons (MNode.element nm a cs0) rest, st, hok, hs => by
    obtain ⟨s, hcs0, hsne⟩ := simpleElemShape nm a cs0 (simpleSeqHead _ _ hs)
    subst hcs0
    have hne : s.toList ≠ [] := toListNeNil s hsne
    obtain ⟨c, cs, hcs⟩ : ∃ c cs, s.toList = c :: cs := by
      cases hl : s.toList with
      | nil => exact absurd hl hne
      | cons c cs => exact ⟨c, cs, rfl⟩
    have hunits : traverseOne (MNode.element nm a (MForest.cons (MNode.text s) MForest.nil)) [] =
        s.toList.map (fun ch =>
          ({ char := ch, tags := [{ name := toLowerStr nm, attributes := a }] } : CharUnit)) := by
      simp [traverseOne, traverseForest]
    have hlow : toLowerStr (toLowerStr nm) = toLowerStr nm := toLowerStrIdem nm
    have hok' : st.openStack = [] ∨ ∃ g, st.openStack = [g] ∧
        toLowerStr g.name ≠ ({ name := toLowerStr nm, attributes := a } : TagInfo).name := by
      rcases hok with h | ⟨g, hg, hstable, hnc⟩
      · exact Or.inl h
      · refine Or.inr ⟨g, hg, ?_⟩
        have hgc : g.name ≠ toLowerStr nm := hnc
        rw [hstable]
        exact hgc
    have hok2 : OkEntry ⟨(closeAll st).rootChildren,
        [{ name := toLowerStr nm, attributes := a, children := textsOf (c :: cs) }]⟩ rest := by
      refine Or.inr ⟨_, rfl, hlow, ?_⟩
      cases rest with
      | nil => exact trivial
      | cons hd tl =>
        cases hd with
        | text _ => exact trivial
        | comment _ => exact trivial
        | element n2 a2 c2 =>
          show toLowerStr nm ≠ toLowerStr n2
          exact distinctAdjacentNe nm a _ n2 a2 c2 tl (simpleSeqDistinct _ hs)
    show (closeAll (List.foldl stepUnit st
      (traverseOne (MNode.element nm a (MForest.cons (MNode.text s) MForest.nil)) []
        ++ traverseForest rest []))).rootChildren = _
    rw [List.foldl_append, hunits, hcs]
    rw [foldElemNode st { name := toLowerStr nm, attributes := a } c cs hok' hlow]
    rw [renderSimpleAccum rest _ hok2 (simpleSeqTail _ _ hs)]
    rw [show (closeAll (⟨(closeAll st).rootChildren,
      [{ name := toLowerStr nm, attributes := a, children := textsOf (c :: cs) }]⟩ :
        RenderState)).rootChildren =
      (closeAll st).rootChildren.snoc (RNode.element (toLowerStr nm) a (textsOf (c :: cs))) from rfl]
    rw [snocEqAppend, forestAppendAssoc, ← hcs]
    rfl
  | MForest.cons (MNode.comment s) rest, st, hok, hs => by
    have hsn := simpleSeqHead _ _ hs
    simp [simpleNode] at hsn

/-! Text preservation of the renderer, for arbitrary inputs. -/

theorem stateTextCloseTop : ∀ (st : RenderState), stateText (closeTop st) = stateText st
  | ⟨_, []⟩ => rfl
  | ⟨R, [f]⟩ => by
    show stateText ⟨R.snoc (RNode.element f.name f.attributes f.children), []⟩ = _
    simp [stateText, textFSnoc, textN]
  | ⟨R, f :: g :: rest⟩ => by
    show stateText ⟨R,
      { g with children := g.children.snoc (RNode.element f.name f.attributes f.children) }
        :: rest⟩ = _
    simp [stateText, textFSnoc, textN, List.reverse_cons, List.map_append,
      List.flatten_append, List.append_assoc]

theorem stateTextAppendChar : ∀ (st : RenderState) (c : Char),
    stateText (appendChar st c) = stateText st ++ [c]
  | ⟨R, []⟩, c => by
    show stateText ⟨R.snoc (RNode.text c), []⟩ = _
    simp [stateText, textFSnoc, textN]
  | ⟨R, f :: rest⟩, c => by
    show stateText ⟨R, { f with children := f.children.snoc (RNode.text c) } :: rest⟩ = _
    simp [stateText, textFSnoc, textN, List.reverse_cons, List.map_append,
      List.flatten_append, List.append_assoc]

theorem stateTextOpenFrames : ∀ (ts : List TagInfo) (st : RenderState),
    stateText (openFrames st ts) = stateText st
  | [], _ => rfl
  | t :: ts, st => by
    show stateText (openFrames ⟨st.rootChildren, mkFrame t :: st.openStack⟩ ts) = _
    rw [stateTextOpenFrames ts _]
    simp [stateText, mkFrame, List.reverse_cons, List.map_append, List.flatten_append, textF]

theorem stateTextPopLoopF : ∀ (n : Nat) (st : RenderState) (tags : List TagInfo),
    stateText (popLoopF n st tags) = stateText st
  | 0, _, _ => rfl
  | n + 1, st, tags => by
    cases hb : shouldPop st tags with
    | false => simp [popLoopF, hb]
    | true =>
      simp only [popLoopF, hb, if_true]
      rw [stateTextPopLoopF n _ tags, stateTextCloseTop]

theorem stateTextCloseAllF : ∀ (n : Nat) (st : RenderState),
    stateText (closeAllF n st) = stateText st
  | 0, _ => rfl
  | n + 1, st => by
    obtain ⟨R, stack⟩ := st
    cases stack with
    | nil => rfl
    | cons f rest =>
      show stateText (closeAllF n (closeTop ⟨R, f :: rest⟩)) = _
      rw [stateTextCloseAllF n _, stateTextCloseTop]

theorem stateTextStep (st : RenderState) (u : CharUnit) :
    stateText (stepUnit st u) = stateText st ++ [u.char] := by
  show stateText (appendChar (openFrames (popLoop st u.tags)
    (u.tags.drop (popLoop st u.tags).openStack.length)) u.char) = _
  rw [stateTextAppendChar, stateTextOpenFrames,
    show popLoop st u.tags = popLoopF st.openStack.length st u.tags from rfl,
    stateTextPopLoopF]

theorem stateTextFold : ∀ (units : List CharUnit) (st : RenderState),
    stateText (List.foldl stepUnit st units) = stateText st ++ units.map CharUnit.char
  | [], st => by simp
  | u :: us, st => by
    show stateText (List.foldl stepUnit (stepUnit st u) us) = _
    rw [stateTextFold us _, stateTextStep]
    simp

theorem stateTextNilStack (st : RenderState) (h : st.openStack = []) :
    stateText st = textF st.rootChildren := by
  simp [stateText, h]

theorem textRenderUnits (units : List CharUnit) (n : Nat) :
    textF (renderUnits units n) = (units.take n).map CharUnit.char := by
  have h1 : stateText (closeAll (List.foldl stepUnit initState (units.take n))) =
      stateText (List.foldl stepUnit initState (units.take n)) := stateTextCloseAllF _ _
  rw [stateTextFold] at h1
  rw [stateTextNilStack _ (closeAllStackNil (List.foldl stepUnit initState (units.take n)))] at h1
  show textF (closeAll (List.foldl stepUnit initState (units.take n))).rootChildren = _
  rw [h1]
  rfl

mutual
theorem travTextOne : ∀ (n : MNode) (tags : List TagInfo),
    (traverseOne n tags).map CharUnit.char = textM1 n
  | MNode.text s, tags => by
    show (s.toList.map (fun c => ({ char := c, tags := tags } : CharUnit))).map CharUnit.char
      = s.toList
    rw [List.map_map]
    rw [show (CharUnit.char ∘ fun c => ({ char := c, tags := tags } : CharUnit))
      = fun c => c from rfl]
    exact List.map_id' s.toList
  | MNode.element nm a cs, tags =>
    travTextF cs (tags ++ [({ name := toLowerStr nm, attributes := a } : TagInfo)])
  | MNode.comment _, _ => rfl
theorem travTextF : ∀ (m : MForest) (tags : List TagInfo),
    (traverseForest m tags).map CharUnit.char = textMF m
  | MForest.nil, _ => rfl
  | MForest.cons n rest, tags => by
    show (traverseOne n tags ++ traverseForest rest tags).map CharUnit.char
      = textM1 n ++ textMF rest
    rw [List.map_append, travTextOne n tags, travTextF rest tags]
end

/-! Compositionality and snapshot lemmas of the parser. -/

theorem travAppendF : ∀ (a b : MForest) (tags : List TagInfo),
    traverseForest (a.append b) tags = traverseForest a tags ++ traverseForest b tags
  | MForest.nil, _, _ => rfl
  | MForest.cons n rest, b, tags => by
    show traverseOne n tags ++ traverseForest (rest.append b) tags = _
    rw [travAppendF rest b tags, ← List.append_assoc]
    rfl

mutual
theorem travSnapOne : ∀ (n : MNode) (tags : List TagInfo) (u : CharUnit),
    u ∈ traverseOne n tags → ∃ rest, u.tags = tags ++ rest
  | MNode.text s, tags, u, hu => by
    have hu' : u ∈ s.toList.map (fun c => ({ char := c, tags := tags } : CharUnit)) := hu
    obtain ⟨c, -, rfl⟩ := List.mem_map.mp hu'
    exact ⟨[], (List.append_nil tags).symm⟩
  | MNode.element nm a cs, tags, u, hu => by
    obtain ⟨r, hr⟩ :=
      travSnapF cs (tags ++ [({ name := toLowerStr nm, attributes := a } : TagInfo)]) u hu
    exact ⟨[({ name := toLowerStr nm, attributes := a } : TagInfo)] ++ r,
      by rw [hr, List.append_assoc]⟩
  | MNode.comment _, _, _, hu => absurd hu (List.not_mem_nil _)
theorem travSnapF : ∀ (m : MForest) (tags : List TagInfo) (u : CharUnit),
    u ∈ traverseForest m tags → ∃ rest, u.tags = tags ++ rest
  | MForest.nil, _, _, hu => absurd hu (List.not_mem_nil _)
  | MForest.cons n rest, tags, u, hu => by
    have hu' : u ∈ traverseOne n tags ++ traverseForest rest tags := hu
    rcases List.mem_append.mp hu' with h | h
    · exact travSnapOne n tags u h
    · exact travSnapF rest tags u h
end

/-! Lemmas for the name-only reuse behaviour of the renderer. -/

theorem zipAllNames : ∀ (names : List String) (l : List TagInfo),
    names.map toLowerStr = l.map TagInfo.name →
    (List.zip names l).all (fun p => toLowerStr p.1 == p.2.name) = true
  | [], _, _ => rfl
  | _ :: _, [], h => by simp at h
  | n :: ns, t :: ts, h => by
    simp only [List.map_cons, List.cons.injEq] at h
    simp only [List.zip_cons_cons, List.all_cons, Bool.and_eq_true]
    exact ⟨by simp [h.1], zipAllNames ns ts h.2⟩

theorem tagsMatchOfNames (names : List String) (l : List TagInfo)
    (h : names.map toLowerStr = l.map TagInfo.name) : tagsMatch names l = true := by
  have hlen : names.length = l.length := by
    have hc := congrArg List.length h
    simpa using hc
  unfold tagsMatch
  rw [if_neg (by omega)]
  exact zipAllNames names l h

theorem closeAllChain : ∀ (L : List Frame) (f : Frame) (R : RForest),
    closeAll ⟨R, f :: L⟩ =
      ⟨R.snoc (wrapL L (RNode.element f.name f.attributes f.children)), []⟩
  | [], _, _ => rfl
  | g :: gs, f, R => by
    rw [show closeAll ⟨R, f :: g :: gs⟩ =
      closeAll ⟨R,
        { g with children := g.children.snoc (RNode.element f.name f.attributes f.children) }
          :: gs⟩ from rfl]
    rw [closeAllChain gs _ R]
    rfl

theorem nestTagsSnoc : ∀ (ls : List TagInfo) (t : TagInfo) (inner : RNode),
    nestTags (ls ++ [t]) inner =
      nestTags ls (RNode.element t.name t.attributes (RForest.cons inner RForest.nil))
  | [], _, _ => rfl
  | l :: ls, t, inner => by
    show RNode.element l.name l.attributes
        (RForest.cons (nestTags (ls ++ [t]) inner) RForest.nil) = _
    rw [nestTagsSnoc ls t inner]
    rfl

theorem wrapLFresh : ∀ (l : List TagInfo) (inner : RNode),
    wrapL ((l.map mkFrame).reverse) inner = nestTags l inner := by
  intro l
  induction l using List.reverseRecOn with
  | nil => intro inner; rfl
  | append_singleton ls t ih =>
    intro inner
    rw [List.map_append, List.reverse_append]
    show wrapL ((ls.map mkFrame).reverse)
      (RNode.element t.name t.attributes (RForest.nil.snoc inner)) = _
    rw [ih]
    exact (nestTagsSnoc ls t inner).symm

theorem nestBodySingle : ∀ (ls : List TagInfo) (t : TagInfo) (body : RForest),
    nestBody (ls ++ [t]) body =
      RForest.cons (nestTags ls (RNode.element t.name t.attributes body)) RForest.nil
  | [], _, _ => rfl
  | l :: ls, t, body => by
    show RForest.cons (RNode.element l.name l.attributes (nestBody (ls ++ [t]) body))
      RForest.nil = _
    rw [nestBodySingle ls t body]
    rfl

/-! Lemmas about the playback operations. -/

theorem cutNatZero : cutNat 0 = 0 := by
  simp [cutNat]

theorem cutNatNat (n : Nat) : cutNat (n : ℚ) = n := by
  simp [cutNat]

theorem seekIndex (s : CtlState) (p : ℚ) :
    (seekOp s p).state.currentIndex =
      if 0 ≤ p ∧ p ≤ 1 then ((⌊p * (s.parsedNodes.length : ℚ)⌋ : ℤ) : ℚ)
      else max 0 (min p (s.parsedNodes.length : ℚ)) := by
  unfold seekOp
  cases h : (s.isPlaying && !s.isPaused) <;> simp [h, cancelAnimation]

theorem seekParsed (s : CtlState) (p : ℚ) : (seekOp s p).state.parsedNodes = s.parsedNodes := by
  unfold seekOp
  cases h : (s.isPlaying && !s.isPaused) <;> simp [h, cancelAnimation]

theorem seekEvents (s : CtlState) (p : ℚ) :
    (seekOp s p).events = [CEvent.seek (seekOp s p).state.currentIndex
      (jsDiv (seekOp s p).state.currentIndex (s.parsedNodes.length : ℚ))] := by
  unfold seekOp
  cases h : (s.isPlaying && !s.isPaused) <;> simp [h, cancelAnimation]

theorem seekRendered (s : CtlState) (p : ℚ) :
    (seekOp s p).rendered =
      some (renderUnits s.parsedNodes (cutNat (seekOp s p).state.currentIndex)) := by
  unfold seekOp
  cases h : (s.isPlaying && !s.isPaused) <;> simp [h, cancelAnimation, renderAt]

theorem seekFrame (s : CtlState) (p : ℚ) :
    (seekOp s p).state.animationFrame = (s.isPlaying && !s.isPaused) := by
  unfold seekOp
  cases h : (s.isPlaying && !s.isPaused) <;> simp [h, cancelAnimation]

theorem seekIndexBounds (s : CtlState) (p : ℚ) :
    0 ≤ (seekOp s p).state.currentIndex ∧
    (seekOp s p).state.currentIndex ≤ (s.parsedNodes.length : ℚ) := by
  rw [seekIndex]
  by_cases h : 0 ≤ p ∧ p ≤ 1
  · rw [if_pos h]
    constructor
    · exact_mod_cast Int.floor_nonneg.mpr (mul_nonneg h.1 (Nat.cast_nonneg _))
    · calc ((⌊p * (s.parsedNodes.length : ℚ)⌋ : ℤ) : ℚ)
          ≤ p * (s.parsedNodes.length : ℚ) := Int.floor_le _
        _ ≤ 1 * (s.parsedNodes.length : ℚ) :=
          mul_le_mul_of_nonneg_right h.2 (Nat.cast_nonneg _)
        _ = (s.parsedNodes.length : ℚ) := one_mul _
  · rw [if_neg h]
    refine ⟨le_max_left 0 _, max_le (Nat.cast_nonneg _) (min_le_right _ _)⟩

theorem completeState (s : CtlState) :
    (completeOp s).state =
      { s with currentIndex := (s.parsedNodes.length : ℚ),
               isPlaying := false, isPaused := false, animationFrame := false } := rfl

theorem completeRendered (s : CtlState) :
    (completeOp s).rendered = some (renderUnits s.parsedNodes (cutNat (s.parsedNodes.length : ℚ))) := rfl

/-! Theorems for the claims. -/

/-- C5: `delayPerChar` computes exactly the DurationPolicy formula of the
specification: a `speed` attribute that is non-positive or non-numeric is
replaced by 1; zero characters give delay 0; otherwise the minimum-duration
bound applies first, then the maximum-duration bound, else the base delay
`50/speed`; in particular 10 characters with `min-duration = 2000`,
`max-duration = 5000` and `speed = 1` give 200 ms per character. -/
theorem c5_delay_policy :
    (∀ (totalChars : Nat) (speed minD : ℚ) (maxD : Option ℚ),
      delayPerChar totalChars speed minD maxD = delayPerCharSpec totalChars speed minD maxD) ∧
    (∀ (s : CtlState) (x : ℚ), (setSpeedAttr s (some x)).speed = if x > 0 then x else 1) ∧
    (∀ s : CtlState, (setSpeedAttr s none).speed = 1) ∧
    (∀ (speed minD : ℚ) (maxD : Option ℚ), delayPerChar 0 speed minD maxD = 0) ∧
    delayPerChar 10 1 2000 (some 5000) = 200 := by
  refine ⟨?_, fun _ _ => rfl, fun _ => rfl, fun _ _ _ => rfl, ?_⟩
  · intro tc sp mn mx
    unfold delayPerChar delayPerCharSpec
    cases mx <;> simp
  · norm_num [delayPerChar]

/-- C9: `seek(1)` and `complete()` agree: both set the index to the sequence
length, expose the same `progress` value, and render the same fragment. -/
theorem c9_seek_complete_agree (s : CtlState) :
    (seekOp s 1).state.currentIndex = (s.parsedNodes.length : ℚ) ∧
    (completeOp s).state.currentIndex = (s.parsedNodes.length : ℚ) ∧
    getProgress (seekOp s 1).state = getProgress (completeOp s).state ∧
    (seekOp s 1).rendered = (completeOp s).rendered := by
  have hidx : (seekOp s 1).state.currentIndex = (s.parsedNodes.length : ℚ) := by
    rw [seekIndex, if_pos ⟨zero_le_one, le_refl 1⟩, one_mul]
    simp
  refine ⟨hidx, rfl, ?_, ?_⟩
  · unfold getProgress
    rw [hidx, seekParsed]
    rfl
  · rw [seekRendered, hidx, completeRendered]

/-- C2 (amended): `start()` resets the index to 0, sets the playing flags,
renders index 0, schedules a tick and emits `start` exactly when the
component is in neither the Playing nor the Paused phase (`_isPlaying`
false); whenever `_isPlaying` is set — which includes the Paused phase —
`start()` is a no-op with no event. -/
theorem c2_start_semantics :
    (∀ s : CtlState, s.isPlaying = false →
      startOp s = { state := { s with currentIndex := 0, lastTimestamp := 0,
                                      isPlaying := true, isPaused := false,
                                      animationFrame := true },
                    events := [CEvent.start],
                    rendered := some (renderUnits s.parsedNodes 0) }) ∧
    (∀ s : CtlState, s.isPlaying = true →
      startOp s = { state := s, events := [], rendered := none }) := by
  constructor
  · intro s h
    unfold startOp
    rw [if_neg (by simp [h])]
    simp only [cancelAnimation, renderAt]
    rw [cutNatZero]
  · intro s h
    unfold startOp
    rw [if_pos (by simp [h])]

/-- C2 counterexample: from the Paused phase (where the claim requires a
reset to index 0 and a `start` event) `start()` changes nothing and emits
nothing, because `_isPlaying` is still set while paused. -/
theorem c2_start_paused_cex :
    getIsPlaying pausedSample = false ∧
    (startOp pausedSample).state = pausedSample ∧
    (startOp pausedSample).events = [] ∧
    pausedSample.currentIndex ≠ 0 := by
  refine ⟨rfl, rfl, rfl, ?_⟩
  norm_num [pausedSample]

/-- C3 (amended): when the parsed sequence is empty every guarded ratio is 0
(`progress` getter, `delayPerChar`, `_calculateCharDelay`) and the tick
loop emits no `progress` event; but the `seek` event's `progress` detail is
the unguarded `0 / 0` and is `NaN`, not 0. -/
theorem c3_empty_guards :
    (∀ s : CtlState, s.parsedNodes = [] → getProgress s = 0) ∧
    (∀ (speed minD : ℚ) (maxD : Option ℚ), delayPerChar 0 speed minD maxD = 0) ∧
    (∀ s : CtlState, s.parsedNodes = [] → calculateCharDelay s = 0) ∧
    (∀ (s : CtlState) (ts : ℚ), s.parsedNodes = [] → 0 ≤ s.currentIndex →
      ∀ (cur : ℚ) (tot : Nat) (pr : JSVal),
        CEvent.progress cur tot pr ∉ (animateOp s ts).events) ∧
    (∀ (s : CtlState) (p : ℚ), s.parsedNodes = [] →
      (seekOp s p).events = [CEvent.seek 0 JSVal.nan]) := by
  refine ⟨?_, fun _ _ _ => rfl, ?_, ?_, ?_⟩
  · intro s h
    simp [getProgress, h]
  · intro s h
    rw [calculateCharDelay, h]
    rfl
  · intro s ts h hidx cur tot pr
    have hadv : decide (s.currentIndex < (s.parsedNodes.length : ℚ)) = false := by
      rw [h]
      simp only [List.length_nil, Nat.cast_zero, decide_eq_false_iff_not, not_lt]
      exact hidx
    unfold animateOp
    split
    · simp
    · dsimp only
      split
      · dsimp only
        split
        · rw [hadv]
          simp only [Bool.false_eq_true, if_false]
          split <;> simp
        · simp
      · split
        · rw [hadv]
          simp only [Bool.false_eq_true, if_false]
          split <;> simp
        · simp
  · intro s p h
    have hlen : ((seekOp s p).state.currentIndex : ℚ) = 0 := by
      rw [seekIndex, h]
      by_cases hp : 0 ≤ p ∧ p ≤ 1
      · rw [if_pos hp]
        simp
      · rw [if_neg hp]
        simp only [List.length_nil, Nat.cast_zero]
        rcases lt_or_ge p 0 with hneg | hpos
        · rw [min_eq_left hneg.le, max_eq_left hneg.le]
        · rw [min_eq_right hpos]
          exact max_eq_left (le_refl 0)
    rw [seekEvents, hlen, h]
    rw [show ((([] : List CharUnit).length : Nat) : ℚ) = 0 from rfl]
    rw [show jsDiv 0 0 = JSVal.nan from rfl]

/-- C3 counterexample: on an empty parsed sequence `seek` emits an event
whose `progress` detail is `NaN` (the unguarded `0 / 0`), not 0 as the
claim asserts for every event payload. -/
theorem c3_seek_nan_cex :
    (seekOp emptyState (1 / 2)).events = [CEvent.seek 0 JSVal.nan] ∧
    JSVal.nan ≠ JSVal.val 0 := by
  constructor
  · norm_num [seekOp, emptyState, cancelAnimation, jsDiv]
  · intro hcon
    cases hcon

/-- C4: a tick invocation (no tick pending) with the phase not Playing
mutates nothing, emits nothing, renders nothing and does not reschedule;
with the phase Playing the index advances by at most one per invocation
(characters are revealed in sequence order with none skipped), any render
shows exactly the prefix at the resulting index, and an invocation whose
advance reaches the end of the sequence clears the playing flags (phase
Completed), dispatches exactly one `complete` event, and does not
reschedule. -/
theorem c4_tick_loop (s : CtlState) (ts : ℚ) (haf : s.animationFrame = false) :
    (getIsPlaying s = false → animateOp s ts = { state := s, events := [], rendered := none }) ∧
    (getIsPlaying s = true →
      ((animateOp s ts).state.currentIndex = s.currentIndex ∨
        (animateOp s ts).state.currentIndex = s.currentIndex + 1) ∧
      ((animateOp s ts).rendered = none ∨
        (animateOp s ts).rendered =
          some (renderUnits s.parsedNodes (cutNat (animateOp s ts).state.currentIndex))) ∧
      ((animateOp s ts).state.currentIndex = s.currentIndex + 1 ∧
          (s.parsedNodes.length : ℚ) ≤ (animateOp s ts).state.currentIndex →
        (animateOp s ts).state.isPlaying = false ∧
        (animateOp s ts).state.isPaused = false ∧
        (animateOp s ts).events.count CEvent.complete = 1 ∧
        (animateOp s ts).state.animationFrame = false)) := by
  constructor
  · intro h
    unfold animateOp
    rw [if_pos (show (!s.isPlaying || s.isPaused) = true by
      cases hp : s.isPlaying <;> cases hq : s.isPaused <;> simp_all [getIsPlaying])]
  · intro h
    have hp : s.isPlaying = true := by
      cases hp : s.isPlaying <;> simp_all [getIsPlaying]
    have hq : s.isPaused = false := by
      cases hq : s.isPaused <;> simp_all [getIsPlaying]
    unfold animateOp
    rw [if_neg (by simp [hp, hq])]
    dsimp only
    split
    all_goals
      split
      · split
        · split
          · exact ⟨Or.inr rfl, Or.inr rfl,
              fun _ => ⟨rfl, hq, by simp [List.count_cons], haf⟩⟩
          · refine ⟨Or.inr rfl, Or.inr rfl, fun hcon => ?_⟩
            rename_i hnc
            exact absurd hcon.2 hnc
        · split
          · refine ⟨Or.inl rfl, Or.inl rfl, fun hcon => ?_⟩
            have hx := hcon.1
            simp at hx
          · refine ⟨Or.inl rfl, Or.inl rfl, fun hcon => ?_⟩
            have hx := hcon.1
            simp at hx
      · refine ⟨Or.inl rfl, Or.inl rfl, fun hcon => ?_⟩
        have hx := hcon.1
        simp at hx

/-- C6: `seek(position)` treats a position inside [0,1] as a percentage
(index = floor(position·len)) and any other numeric position as an index
clamped into [0,len]; it renders the resulting index synchronously, emits
exactly one `seek` event whose `position` is the resulting index and whose
`progress` is the JS division index/len, and a tick remains scheduled
exactly when the phase was Playing (and not Paused) before the call; on a
ten-character sequence `seek(0.5)` yields index 5 and the event
`{position: 5, progress: 0.5}`. -/
theorem c6_seek_semantics :
    (∀ (s : CtlState) (p : ℚ),
      (0 ≤ p ∧ p ≤ 1 →
        (seekOp s p).state.currentIndex = ((⌊p * (s.parsedNodes.length : ℚ)⌋ : ℤ) : ℚ)) ∧
      (¬(0 ≤ p ∧ p ≤ 1) →
        (seekOp s p).state.currentIndex = max 0 (min p (s.parsedNodes.length : ℚ))) ∧
      (seekOp s p).rendered =
        some (renderUnits s.parsedNodes (cutNat (seekOp s p).state.currentIndex)) ∧
      (seekOp s p).events = [CEvent.seek (seekOp s p).state.currentIndex
        (jsDiv (seekOp s p).state.currentIndex (s.parsedNodes.length : ℚ))] ∧
      (seekOp s p).state.animationFrame = (s.isPlaying && !s.isPaused)) ∧
    (∀ s : CtlState, s.parsedNodes.length = 10 →
      (seekOp s (1 / 2)).state.currentIndex = 5 ∧
      (seekOp s (1 / 2)).events = [CEvent.seek 5 (JSVal.val (1 / 2))]) := by
  constructor
  · intro s p
    refine ⟨?_, ?_, seekRendered s p, seekEvents s p, seekFrame s p⟩
    · intro hp
      rw [seekIndex, if_pos hp]
    · intro hp
      rw [seekIndex, if_neg hp]
  · intro s hlen
    have hidx : (seekOp s (1 / 2)).state.currentIndex = 5 := by
      rw [seekIndex, if_pos (by norm_num), hlen]
      have h5 : (1 / 2 : ℚ) * ((10 : Nat) : ℚ) = 5 := by norm_num
      rw [h5]
      norm_num
    refine ⟨hidx, ?_⟩
    rw [seekEvents, hidx, hlen]
    norm_num [jsDiv]

/-- C8: from any state with 0 ≤ index ≤ len, every public operation
preserves the invariant (out-of-range seek positions are clamped into
[0, len]), and consequently the `progress` getter lies in [0, 1]. -/
theorem c8_invariant (s : CtlState) (hinv : IndexInvariant s) :
    IndexInvariant (startOp s).state ∧ IndexInvariant (pauseOp s).state ∧
    IndexInvariant (resumeOp s).state ∧ IndexInvariant (completeOp s).state ∧
    IndexInvariant (resetOp s).state ∧ (∀ p : ℚ, IndexInvariant (seekOp s p).state) ∧
    (∀ m : MForest, IndexInvariant (setTextOp s m).state) ∧
    0 ≤ getProgress s ∧ getProgress s ≤ 1 := by
  obtain ⟨h0, h1⟩ := hinv
  refine ⟨?_, ?_, ?_, ?_, ?_, ?_, ?_, ?_, ?_⟩
  · unfold startOp
    split
    · exact ⟨h0, h1⟩
    · exact ⟨le_refl 0, Nat.cast_nonneg _⟩
  · unfold pauseOp
    split
    · exact ⟨h0, h1⟩
    · exact ⟨h0, h1⟩
  · unfold resumeOp
    split
    · exact ⟨h0, h1⟩
    · exact ⟨h0, h1⟩
  · exact ⟨Nat.cast_nonneg _, le_refl _⟩
  · exact ⟨le_refl 0, Nat.cast_nonneg _⟩
  · intro p
    have hb := seekIndexBounds s p
    unfold IndexInvariant
    rw [seekParsed]
    exact hb
  · intro m
    exact ⟨le_refl 0, Nat.cast_nonneg _⟩
  · unfold getProgress
    split
    · exact div_nonneg h0 (Nat.cast_nonneg _)
    · exact le_refl 0
  · unfold getProgress
    split
    · next hlen =>
        have hlen' : (0 : ℚ) < (s.parsedNodes.length : ℚ) := by exact_mod_cast hlen
        exact (div_le_one hlen').mpr h1
    · exact zero_le_one

/-- C1 (amended): rendering the fully parsed sequence always reproduces the
text of the source in order, for every markup input; it reproduces the full
nesting and attributes on inputs made of non-empty texts and single-text
elements whose adjacent elements carry distinct tag names.  (The
counterexample shows that for adjacent sibling elements with the same tag
name — the case the original claim highlights — the renderer merges the
two elements, so the full structural round-trip fails.) -/
theorem c1_round_trip (m : MForest) :
    textF (renderUnits (parseContent m) (parseContent m).length) = textMF m ∧
    (SimpleSeq m = true →
      eventsF (renderUnits (parseContent m) (parseContent m).length) = eventsMF m) := by
  constructor
  · rw [textRenderUnits, List.take_length]
    exact travTextF m []
  · intro hs
    have hr : renderUnits (parseContent m) (parseContent m).length =
        (closeAll (List.foldl stepUnit initState (traverseForest m []))).rootChildren := by
      unfold renderUnits
      rw [List.take_length]
      rfl
    rw [hr, renderSimpleAccum m initState (Or.inl rfl) hs]
    rw [show ((closeAll initState).rootChildren.append (renderedMF m)) = renderedMF m from rfl]
    refine eventsRenderedMF m ?_
    simp [SimpleSeq] at hs
    exact hs.1

/-- C1 counterexample: for `"<b>A</b><b>B</b>"` — two adjacent sibling
elements with the same tag name — the fully rendered fragment merges both
characters into a single `b` element and is not structurally equivalent to
the source tree. -/
theorem c1_round_trip_cex :
    eventsF (renderUnits (parseContent siblingSample) (parseContent siblingSample).length) ≠
      eventsMF siblingSample := by
  decide

/-- C7: `_traverseNodes` is depth-first pre-order and compositional (later
siblings only append units, so already-emitted units never change),
comments contribute nothing, empty input yields the empty sequence, the
emitted characters are exactly the text of the tree in document order (one
unit per character), every emitted unit's path extends the ancestry stack
passed in (a snapshot), and `"<b>Hi</b>"` parses to exactly two units with
path `[{name := "b", attributes := ∅}]`. -/
theorem c7_parser_props :
    (∀ (a b : MForest) (tags : List TagInfo),
      traverseForest (a.append b) tags = traverseForest a tags ++ traverseForest b tags) ∧
    (∀ (s : String) (tags : List TagInfo), traverseOne (MNode.comment s) tags = []) ∧
    parseContent MForest.nil = [] ∧
    (∀ (m : MForest) (tags : List TagInfo),
      (traverseForest m tags).map CharUnit.char = textMF m) ∧
    (∀ (m : MForest) (tags : List TagInfo) (u : CharUnit),
      u ∈ traverseForest m tags → ∃ rest, u.tags = tags ++ rest) ∧
    parseContent sampleBHi =
      [{ char := 'H', tags := [{ name := "b", attributes := [] }] },
       { char := 'i', tags := [{ name := "b", attributes := [] }] }] :=
  ⟨travAppendF, fun _ _ => rfl, rfl, travTextF, travSnapF, by decide⟩

/-- C10 (amended): when two units in sequence have tag paths of equal depth
whose frames match pairwise by (lower-cased) tag name alone — attributes
may differ arbitrarily — the renderer reuses the materialized chain: both
characters land as siblings inside the same innermost element, and every
element of the chain carries the name and attributes of the frame that
materialized it.  Here the pair opens the chain, so the chain is built
entirely from the first unit's frames and the second unit's attributes are
ignored.  (The counterexample shows that when an earlier unit materialized
the element, it is that earlier frame's attributes — not the first of the
two frames' — that the element carries.) -/
theorem c10_name_only_merge (u1 u2 : CharUnit)
    (h : u1.tags.map (fun t => toLowerStr t.name) = u2.tags.map TagInfo.name) :
    renderUnits [u1, u2] 2 =
      nestBody u1.tags
        (RForest.cons (RNode.text u1.char) (RForest.cons (RNode.text u2.char) RForest.nil)) := by
  obtain ⟨c1, t1⟩ := u1
  obtain ⟨c2, t2⟩ := u2
  simp only at h
  rcases List.eq_nil_or_concat t1 with h1 | ⟨l', a, h1⟩
  · subst h1
    have h2 : t2 = [] := by
      have hx := h.symm
      simpa using hx
    subst h2
    rfl
  · rw [List.concat_eq_append] at h1
    subst h1
    have hstep1 : stepUnit initState { char := c1, tags := l' ++ [a] } =
        ⟨RForest.nil, ({ name := a.name, attributes := a.attributes, children := RForest.cons (RNode.text c1) RForest.nil } : Frame) :: (l'.map mkFrame).reverse⟩ := by
      rw [stepUnitFromEmpty initState { char := c1, tags := l' ++ [a] } rfl]
      rw [show ((l' ++ [a]).map mkFrame).reverse = mkFrame a :: (l'.map mkFrame).reverse from by
        rw [List.map_append, List.reverse_append]
        rfl]
      rfl
    have hnames : stackNames ⟨RForest.nil, ({ name := a.name, attributes := a.attributes, children := RForest.cons (RNode.text c1) RForest.nil } : Frame) :: (l'.map mkFrame).reverse⟩ = (l' ++ [a]).map TagInfo.name := by
      unfold stackNames
      simp only [List.map_cons, List.reverse_cons, List.map_reverse, List.map_map,
        List.reverse_reverse, List.map_append]
      rfl
    have hlen : (({ name := a.name, attributes := a.attributes, children := RForest.cons (RNode.text c1) RForest.nil } : Frame) :: (l'.map mkFrame).reverse).length = t2.length := by
      have hc := congrArg List.length h
      simp only [List.length_map] at hc
      simp only [List.length_cons, List.length_reverse, List.length_map]
      rw [← hc]
      simp [List.length_append]
    have hm : tagsMatch (stackNames ⟨RForest.nil, ({ name := a.name, attributes := a.attributes, children := RForest.cons (RNode.text c1) RForest.nil } : Frame) :: (l'.map mkFrame).reverse⟩) t2 = true := by
      rw [hnames]
      apply tagsMatchOfNames
      rw [List.map_map]
      exact h
    have hstep2 : stepUnit ⟨RForest.nil, ({ name := a.name, attributes := a.attributes, children := RForest.cons (RNode.text c1) RForest.nil } : Frame) :: (l'.map mkFrame).reverse⟩ { char := c2, tags := t2 } =
        ⟨RForest.nil, ({ name := a.name, attributes := a.attributes, children := RForest.cons (RNode.text c1) (RForest.cons (RNode.text c2) RForest.nil) } : Frame) :: (l'.map mkFrame).reverse⟩ := by
      rw [stepUnitMatched _ { char := c2, tags := t2 } hlen hm]
      rfl
    show (closeAll (stepUnit (stepUnit initState { char := c1, tags := l' ++ [a] })
      { char := c2, tags := t2 })).rootChildren = _
    rw [hstep1, hstep2, closeAllChain]
    rw [wrapLFresh, nestBodySingle]
    rfl

/-- C10 counterexample: in the run `x`, `y`, `z` of three units whose
depth-1 paths all name the tag `b` but carry attributes `k=0`, `k=1`,
`k=2`, the element that holds the consecutive pair (`y`, `z`) carries the
attributes `k=0` of the unit that materialized it — not the attributes
`k=1` of the first frame of the pair, as the claim states. -/
theorem c10_attrs_cex :
    renderUnits [unitAttr0, unitAttr1, unitAttr2] 3 =
      RForest.cons (RNode.element "b" [("k", "0")]
        (RForest.cons (RNode.text 'x') (RForest.cons (RNode.text 'y')
          (RForest.cons (RNode.text 'z') RForest.nil)))) RForest.nil ∧
    renderUnits [unitAttr0, unitAttr1, unitAttr2] 3 ≠
      RForest.cons (RNode.element "b" [("k", "1")]
        (RForest.cons (RNode.text 'x') (RForest.cons (RNode.text 'y')
          (RForest.cons (RNode.text 'z') RForest.nil)))) RForest.nil := by
  constructor
  · decide
  · decide

/-! Witnesses instantiating the hypothesis-bearing theorems at concrete
inputs. -/

/-- Witness for C1 at the markup `"<b>Hi</b>"`. -/
theorem c1_round_trip_witness :
    SimpleSeq sampleBHi = true ∧
    eventsF (renderUnits (parseContent sampleBHi) (parseContent sampleBHi).length) =
      eventsMF sampleBHi :=
  ⟨by decide, (c1_round_trip sampleBHi).2 (by decide)⟩

/-- Witness for C2 starting from an idle state. -/
theorem c2_start_semantics_witness :
    emptyState.isPlaying = false ∧
    startOp emptyState =
      { state := { emptyState with currentIndex := 0, lastTimestamp := 0,
                                   isPlaying := true, isPaused := false,
                                   animationFrame := true },
        events := [CEvent.start],
        rendered := some (renderUnits emptyState.parsedNodes 0) } :=
  ⟨rfl, c2_start_semantics.1 emptyState rfl⟩

/-- Witness for C3 at the empty-sequence state. -/
theorem c3_empty_guards_witness :
    emptyState.parsedNodes = [] ∧ (0 : ℚ) ≤ emptyState.currentIndex ∧
    getProgress emptyState = 0 ∧ calculateCharDelay emptyState = 0 ∧
    (∀ (cur : ℚ) (tot : Nat) (pr : JSVal),
      CEvent.progress cur tot pr ∉ (animateOp emptyState 100).events) ∧
    (seekOp emptyState (1 / 2)).events = [CEvent.seek 0 JSVal.nan] :=
  ⟨rfl, le_refl 0, c3_empty_guards.1 emptyState rfl,
    c3_empty_guards.2.2.1 emptyState rfl,
    c3_empty_guards.2.2.2.1 emptyState 100 rfl (le_refl 0),
    c3_empty_guards.2.2.2.2 emptyState (1 / 2) rfl⟩

/-- Witness for C4 at a playing state one character before the end. -/
theorem c4_tick_loop_witness :
    playingSample.animationFrame = false ∧ getIsPlaying playingSample = true ∧
    (((animateOp playingSample 1000).state.currentIndex = playingSample.currentIndex ∨
      (animateOp playingSample 1000).state.currentIndex = playingSample.currentIndex + 1) ∧
    ((animateOp playingSample 1000).rendered = none ∨
      (animateOp playingSample 1000).rendered =
        some (renderUnits playingSample.parsedNodes
          (cutNat (animateOp playingSample 1000).state.currentIndex))) ∧
    ((animateOp playingSample 1000).state.currentIndex = playingSample.currentIndex + 1 ∧
        (playingSample.parsedNodes.length : ℚ) ≤
          (animateOp playingSample 1000).state.currentIndex →
      (animateOp playingSample 1000).state.isPlaying = false ∧
      (animateOp playingSample 1000).state.isPaused = false ∧
      (animateOp playingSample 1000).events.count CEvent.complete = 1 ∧
      (animateOp playingSample 1000).state.animationFrame = false)) :=
  ⟨rfl, rfl, (c4_tick_loop playingSample 1000 rfl).2 rfl⟩

/-- Witness for C6 at concrete scenario 4 (`seek(0.5)` on ten characters). -/
theorem c6_seek_semantics_witness :
    tenState.parsedNodes.length = 10 ∧
    (seekOp tenState (1 / 2)).state.currentIndex = 5 ∧
    (seekOp tenState (1 / 2)).events = [CEvent.seek 5 (JSVal.val (1 / 2))] :=
  ⟨by decide, (c6_seek_semantics.2 tenState (by decide)).1,
    (c6_seek_semantics.2 tenState (by decide)).2⟩

/-- Witness for C7's snapshot property at the first unit of `"<b>Hi</b>"`. -/
theorem c7_parser_props_witness :
    ({ char := 'H', tags := [{ name := "b", attributes := [] }] } : CharUnit)
      ∈ traverseForest sampleBHi [] ∧
    ∃ rest, ({ char := 'H', tags := [{ name := "b", attributes := [] }] } : CharUnit).tags
      = [] ++ rest :=
  ⟨by decide, c7_parser_props.2.2.2.2.1 sampleBHi []
    { char := 'H', tags := [{ name := "b", attributes := [] }] } (by decide)⟩

/-- Witness for C8 at the ten-character idle state. -/
theorem c8_invariant_witness :
    IndexInvariant tenState ∧ IndexInvariant (completeOp tenState).state ∧
    0 ≤ getProgress tenState ∧ getProgress tenState ≤ 1 :=
  ⟨⟨le_refl 0, Nat.cast_nonneg _⟩,
    (c8_invariant tenState ⟨le_refl 0, Nat.cast_nonneg _⟩).2.2.2.1,
    (c8_invariant tenState ⟨le_refl 0, Nat.cast_nonneg _⟩).2.2.2.2.2.2.2.1,
    (c8_invariant tenState ⟨le_refl 0, Nat.cast_nonneg _⟩).2.2.2.2.2.2.2.2⟩

/-- Witness for C10: two units naming the same tag with different
attributes open one shared element carrying the first unit's attributes. -/
theorem c10_name_only_merge_witness :
    [({ name := "b", attributes := [("k", "1")] } : TagInfo)].map (fun t => toLowerStr t.name) =
      [({ name := "b", attributes := [("k", "2")] } : TagInfo)].map TagInfo.name ∧
    renderUnits [{ char := 'x', tags := [{ name := "b", attributes := [("k", "1")] }] },
      { char := 'y', tags := [{ name := "b", attributes := [("k", "2")] }] }] 2 =
      nestBody [({ name := "b", attributes := [("k", "1")] } : TagInfo)]
        (RForest.cons (RNode.text 'x') (RForest.cons (RNode.text 'y') RForest.nil)) :=
  ⟨by decide, c10_name_only_merge
    { char := 'x', tags := [{ name := "b", attributes := [("k", "1")] }] }
    { char := 'y', tags := [{ name := "b", attributes := [("k", "2")] }] } (by decide)⟩

end TWT
